/-
Verification of the shard-initialization, connection-admission queue and
streaming-decompression components of the twilight gateway crates.

Shallow embedding conventions:
  - Rust `u64` values are `Nat` with explicit `% 2 ^ 64` where wrapping matters.
  - Fallible operations return `Option` / `Except`.
  - External libraries (zstd) are abstract oracle parameters of the model.
-/
import Mathlib

set_option linter.unusedVariables false

/-! ## Machine-integer helpers -/

/-- Modulus of Rust `u64` arithmetic. -/
def U64MOD : Nat := 2 ^ 64

/-- Wrapping `u64` subtraction of 1, as in Rust release-mode `num - 1`. -/
def u64sub1 (n : Nat) : Nat := (n + (U64MOD - 1)) % U64MOD

/-! ## twilight-gateway/src/stream.rs: shard-group initializers

`ShardId::new(index, total)` pairs a shard index with the total shard count.
`start_range` is embedded as the list of shard ids whose `Shard` futures are
pushed into the `FuturesUnordered`; the `assert!` guards become the `Option`
(`none` models a panic).  The body of the `for index in from..to` loop pushes
`ShardId::new(index, total)` and then executes `if index < to - 1 { break; }`,
which the embedding reproduces literally. -/

/-- Identity of a shard: pair of index and total count (twilight-model). -/
structure ShardId where
  index : Nat
  total : Nat
deriving DecidableEq, Repr

/-- Loop body of `start_range`: walk the indices of `from..to`, push a
shard id for the current index, then stop early when `index < to - 1`
(the literal `break` in the source). -/
def startRangeLoop (total upper : Nat) : List Nat → List ShardId
  | [] => []
  | index :: rest =>
    ShardId.mk index total ::
      (if index < upper - 1 then [] else startRangeLoop total upper rest)

/-- Embedding of `stream::start_range(from, to, total, _)`: the list of shard
ids initialized, or `none` when one of the three `assert!` guards panics. -/
def start_range (first upper total : Nat) : Option (List ShardId) :=
  if first < upper ∧ first < total ∧ upper < total then
    some (startRangeLoop total upper (List.range' first (upper - first)))
  else
    none

/-- Embedding of `stream::start_recommended` after the REST discovery call
returned `info.shards = shards`: the source calls
`start_range(0, info.shards - 1, info.shards, _)` (u64 subtraction). -/
def start_recommended (shards : Nat) : Option (List ShardId) :=
  start_range 0 (u64sub1 shards) shards

/-- Shard ids the spec expects from a range start: one per index in
`[first, upper)`.  Written from the spec sentence, for comparison with
`start_range`. -/
def specRangeIds (first upper total : Nat) : List ShardId :=
  (List.range' first (upper - first)).map (fun index => ShardId.mk index total)

/-! ## gateway/src/cluster/builder.rs: `ShardScheme` and its `TryFrom`

The `TryFrom<(T, u64)>` implementation for any `T: RangeBounds<u64>` is
embedded over an explicit pair of `Bound` values.  `Bound::Excluded(num)`
resolves via the source's wrapping `*num - 1`. -/

/-- Rust `std::ops::Bound<u64>`. -/
inductive RBound
  | excluded (num : Nat)
  | included (num : Nat)
  | unbounded
deriving DecidableEq, Repr

/-- The method of sharding to use (`ShardScheme`). -/
inductive ShardScheme
  | auto
  | bucket (bucketId concurrency total : Nat)
  | range (fromShard toShard total : Nat)
deriving DecidableEq, Repr

/-- Starting a cluster failed (`ShardSchemeRangeError`). -/
inductive ShardSchemeRangeError
  | idTooLarge (stop start total : Nat)
deriving DecidableEq, Repr

/-- Resolution of the range's start bound in `ShardScheme::try_from`. -/
def resolveStart : RBound → Nat
  | .excluded num => u64sub1 num
  | .included num => num
  | .unbounded => 0

/-- Resolution of the range's end bound in `ShardScheme::try_from`. -/
def resolveEnd (total : Nat) : RBound → Nat
  | .excluded num => u64sub1 num
  | .included num => num
  | .unbounded => u64sub1 total

/-- Embedding of `ShardScheme::try_from((range, total))`. -/
def ShardScheme.tryFrom (startB stopB : RBound) (total : Nat) :
    Except ShardSchemeRangeError ShardScheme :=
  let start := resolveStart startB
  let stop := resolveEnd total stopB
  if start > stop then
    .error (.idTooLarge stop start total)
  else
    .ok (.range start stop total)

/-- C2 demands, in the spec's words, that a produced `Range` satisfy
`from ≤ to < total`. -/
def specRangeInvariant : ShardScheme → Prop
  | .range fromShard toShard total => fromShard ≤ toShard ∧ toShard < total
  | _ => True

/-! ## gateway/src/queue/large_bot_queue.rs: the bucketed admission queue

`LargeBotQueue` holds `buckets.len() = n` unbounded FIFO channels, each
drained by one `waiter` task.  `request(shard_id)` routes the request to
bucket `shard_id[0] % n`; a `waiter` pops its channel in order, sends the
grant, then sleeps `Duration::from_secs(6)` before popping again.

The embedding is a timed small-step semantics.  A state holds, per bucket,
the FIFO of pending request ids and the earliest instant the bucket's waiter
may send its next grant (its previous grant time plus the pacing interval);
`now` enforces that event times are nondecreasing.  An event is either an
enqueue (a `request` call's send into its bucket's channel) or a grant (a
`waiter` sending on the oneshot).  `qstep` returns `none` for an event the
code cannot exhibit: an out-of-range bucket, a grant before the pacing delay
elapsed, or a grant from an empty channel. -/

/-- Pacing interval of a `waiter` task: `const DUR: Duration = Duration::from_secs(6)`. -/
def waiterDUR : Nat := 6

namespace LargeBotQueue

/-- Bucket selection of `request`: `shard_id[0] % (self.buckets.len() as u64)`. -/
def bucketIndex (shardId0 nBuckets : Nat) : Nat := shardId0 % nBuckets

end LargeBotQueue

/-- State of the bucketed queue: per-bucket pending FIFOs (head is oldest),
per-bucket earliest next grant instant, and the current time. -/
structure QState where
  pending : Nat → List Nat
  nextFree : Nat → Nat
  now : Nat

/-- Initial queue state: all channels empty, every waiter ready immediately. -/
def QState.init : QState :=
  { pending := fun _ => [], nextFree := fun _ => 0, now := 0 }

/-- Observable events of the queue. -/
inductive QEvent
  | enqueue (t : Nat) (reqId : Nat) (shardIndex : Nat)
  | grant (t : Nat) (bucket : Nat)
deriving DecidableEq, Repr

/-- Record of one granted ticket. -/
structure Grant where
  time : Nat
  bucket : Nat
  reqId : Nat
deriving DecidableEq, Repr

/-- One step of the queue with `nBuckets` buckets.  An enqueue appends the
request id to bucket `shardIndex % nBuckets` (the `request` routing); a grant
pops the head of a nonempty bucket, provided the bucket's waiter finished its
previous 6-second delay, and re-arms that delay. -/
def qstep (nBuckets : Nat) (s : QState) : QEvent → Option (QState × Option Grant)
  | .enqueue t reqId shardIndex =>
    if 0 < nBuckets ∧ s.now ≤ t then
      let b := LargeBotQueue.bucketIndex shardIndex nBuckets
      some ({ pending := fun j => if j = b then s.pending b ++ [reqId] else s.pending j,
              nextFree := s.nextFree,
              now := t }, none)
    else
      none
  | .grant t b =>
    if b < nBuckets ∧ s.now ≤ t ∧ s.nextFree b ≤ t then
      match s.pending b with
      | [] => none
      | reqId :: rest =>
        some ({ pending := fun j => if j = b then rest else s.pending j,
                nextFree := fun j => if j = b then t + waiterDUR else s.nextFree j,
                now := t }, some ⟨t, b, reqId⟩)
    else
      none

/-- Run a list of events from a state, returning the final state and the log
of grants in order, or `none` when some event is not a step the code can take. -/
def qexec (nBuckets : Nat) (s : QState) : List QEvent → Option (QState × List Grant)
  | [] => some (s, [])
  | e :: es =>
    match qstep nBuckets s e with
    | none => none
    | some (s1, g) =>
      match qexec nBuckets s1 es with
      | none => none
      | some (s2, log) => some (s2, g.toList ++ log)

/-- Request ids enqueued to bucket `b`, in arrival order. -/
def enqueuedIds (nBuckets b : Nat) : List QEvent → List Nat
  | [] => []
  | .enqueue _ reqId shardIndex :: es =>
    if LargeBotQueue.bucketIndex shardIndex nBuckets = b then
      reqId :: enqueuedIds nBuckets b es
    else
      enqueuedIds nBuckets b es
  | .grant _ _ :: es => enqueuedIds nBuckets b es

/-- Request ids granted from bucket `b`, in grant order. -/
def grantedIds (b : Nat) (log : List Grant) : List Nat :=
  log.filterMap fun g => if g.bucket = b then some g.reqId else none

/-! ## Daily identify quota and the body of `LargeBotQueue::request`

The returned future first awaits `self.limiter.get()` (the daily quota gate),
then sends the oneshot sender into bucket `shard_id[0] % buckets.len()`, and
finally awaits the grant; when the channel send fails it logs and returns
`()` early.  Its output type is `()`: no error value exists.  The future is
embedded as the ordered list of its awaited actions plus its unit result. -/

/-- Modelled from the spec: `DayLimiter` (src/gateway/src/queue/day_limiter.rs
is absent from the source tree; only its caller `LargeBotQueue` is present).
Per the spec, it tracks a rolling daily quota of identify attempts with a
wall-clock reset schedule: fields `current`, `total` and `next_reset` are the
ones `LargeBotQueue::new` reads from the limiter's lock. -/
structure DayLimiter where
  current : Nat
  total : Nat
  nextReset : Nat
deriving DecidableEq, Repr

/-- Modelled from the spec: `DayLimiter::get` blocks until daily quota is
available and never fails; embedded as the instant the gate opens for a
caller arriving at time `t` — immediately when quota remains, otherwise at
the reported reset time. -/
def DayLimiter.get (d : DayLimiter) (t : Nat) : Nat :=
  if d.current < d.total then t else max t d.nextReset

/-- Suspension points of the future returned by `LargeBotQueue::request`,
in program order. -/
inductive ReqAction
  | quotaWait (opensAt : Nat)
  | enqueueBucket (bucket : Nat) (t : Nat)
  | awaitGrant
deriving DecidableEq, Repr

/-- Embedding of the future returned by `LargeBotQueue::request(shard_id)`
for a caller arriving at time `t`: awaits the quota gate, then sends into
bucket `shard_id[0] % nBuckets` and awaits the grant; when the channel send
fails it returns `()` after the gate without enqueueing.  Both paths end in
the unit value — the future's output type has no error case. -/
def LargeBotQueue.request (d : DayLimiter) (nBuckets shardId0 : Nat) (t : Nat)
    (sendOk : Bool) : List ReqAction × Unit :=
  let t1 := DayLimiter.get d t
  if sendOk then
    ([.quotaWait t1, .enqueueBucket (LargeBotQueue.bucketIndex shardId0 nBuckets) t1,
      .awaitGrant], ())
  else
    ([.quotaWait t1], ())

/-! ## twilight-gateway/src/inflater.rs: the streaming decompressor

The zstd decompression context (`zstd_safe::DCtx`) is external C code; it is
embedded as an abstract oracle `ZstdModel C`: `decompressFrame ctx frame`
yields the bytes the `decompress_stream` loop drains for this frame together
with the mutated context, or an error code (the context is mutated in place
either way).  `Inflater`'s own fields and control flow are embedded from the
source: the scratch `buffer` (32 KiB, reused, never reallocated), the
`processed`/`produced` u64 counters updated after the loop and before the
UTF-8 check, and the error classification. -/

/-- Type of `CompressionError` that occurred. -/
inductive CompressionErrorType
  | decompressing
  | notUtf8
deriving DecidableEq, Repr

/-- An operation relating to compression failed (source error elided: it is a
boxed trait object). -/
structure CompressionError where
  kind : CompressionErrorType
deriving DecidableEq, Repr

/-- Oracle for the external zstd streaming API over contexts of type `C`. -/
structure ZstdModel (C : Type) where
  create : C
  decompressFrame : C → List Nat → Except Nat (List Nat) × C
  resetSession : C → C

/-- Gateway event decompressor. -/
structure Inflater (C : Type) where
  buffer : List Nat
  ctx : C
  processed : Nat
  produced : Nat

/-- Size of `Inflater::buffer`: `32 * 1024`. -/
def Inflater.BUFFER_SIZE : Nat := 32 * 1024

/-- Embedding of `Inflater::new`. -/
def Inflater.new {C : Type} (Z : ZstdModel C) : Inflater C :=
  { buffer := List.replicate Inflater.BUFFER_SIZE 0,
    ctx := Z.create,
    processed := 0,
    produced := 0 }

/-- Whether a byte sequence is valid UTF-8, as checked by Rust's
`String::from_utf8`: ASCII, or well-formed 2-, 3- and 4-byte sequences with
overlong encodings, surrogates and values above U+10FFFF rejected. -/
def isValidUtf8 : List Nat → Bool
  | [] => true
  | b0 :: tail =>
    if b0 ≤ 0x7F then
      isValidUtf8 tail
    else if b0 < 0xC2 then
      false
    else if b0 ≤ 0xDF then
      match tail with
      | b1 :: t => 0x80 ≤ b1 && b1 ≤ 0xBF && isValidUtf8 t
      | [] => false
    else if b0 ≤ 0xEF then
      match tail with
      | b1 :: b2 :: t =>
        (if b0 = 0xE0 then 0xA0 else 0x80) ≤ b1 &&
          b1 ≤ (if b0 = 0xED then 0x9F else 0xBF) &&
          (0x80 ≤ b2 && b2 ≤ 0xBF) && isValidUtf8 t
      | _ => false
    else if b0 ≤ 0xF4 then
      match tail with
      | b1 :: b2 :: b3 :: t =>
        (if b0 = 0xF0 then 0x90 else 0x80) ≤ b1 &&
          b1 ≤ (if b0 = 0xF4 then 0x8F else 0xBF) &&
          (0x80 ≤ b2 && b2 ≤ 0xBF) && (0x80 ≤ b3 && b3 ≤ 0xBF) && isValidUtf8 t
      | _ => false
    else
      false

/-- Embedding of `Inflater::inflate`.  The `decompress_stream` draining loop
is collapsed into the oracle call; on a decompression error the function
returns early with a `Decompressing` error (the counters untouched, the
context mutated in place); otherwise `processed`/`produced` are bumped by the
frame's length and the decompressed length (u64 wrapping) and the bytes are
reinterpreted as text, a `NotUtf8` error when they are not valid UTF-8. -/
def Inflater.inflate {C : Type} (Z : ZstdModel C) (st : Inflater C)
    (message : List Nat) : Except CompressionError (List Nat) × Inflater C :=
  match Z.decompressFrame st.ctx message with
  | (.error _code, ctx1) => (.error ⟨.decompressing⟩, { st with ctx := ctx1 })
  | (.ok decompressed, ctx1) =>
    let st1 : Inflater C :=
      { st with
        ctx := ctx1,
        processed := (st.processed + message.length) % U64MOD,
        produced := (st.produced + decompressed.length) % U64MOD }
    if isValidUtf8 decompressed then
      (.ok decompressed, st1)
    else
      (.error ⟨.notUtf8⟩, st1)

/-- Embedding of `Inflater::reset`: re-initialize the context's session state
(`DCtx::reset(ResetDirective::SessionOnly)`), touching nothing else. -/
def Inflater.reset {C : Type} (Z : ZstdModel C) (st : Inflater C) : Inflater C :=
  { st with ctx := Z.resetSession st.ctx }

/-- Feed a sequence of frames through an inflater, collecting each frame's
result. -/
def Inflater.inflateAll {C : Type} (Z : ZstdModel C) (st : Inflater C) :
    List (List Nat) → List (Except CompressionError (List Nat)) × Inflater C
  | [] => ([], st)
  | frame :: frames =>
    ((Inflater.inflate Z st frame).1 ::
        (Inflater.inflateAll Z (Inflater.inflate Z st frame).2 frames).1,
      (Inflater.inflateAll Z (Inflater.inflate Z st frame).2 frames).2)

/-! ## Concrete zstd oracle instances for evaluation -/

/-- Trivial oracle whose contexts are unit and whose decompression is the
identity on the frame; used to evaluate the model on concrete inputs. -/
def zstdId : ZstdModel Unit :=
  { create := (),
    decompressFrame := fun c frame => (.ok frame, c),
    resetSession := fun c => c }

/-- Oracle whose decompression always fails with error code 1; used to
evaluate the model's error path on concrete inputs. -/
def zstdFail : ZstdModel Unit :=
  { create := (),
    decompressFrame := fun c _ => (.error 1, c),
    resetSession := fun c => c }

/-! ## Helper lemmas: inflate depends only on the context -/

lemma inflate_depends_only_ctx {C : Type} (Z : ZstdModel C) (a b : Inflater C)
    (message : List Nat) (h : a.ctx = b.ctx) :
    (Inflater.inflate Z a message).1 = (Inflater.inflate Z b message).1 ∧
    (Inflater.inflate Z a message).2.ctx = (Inflater.inflate Z b message).2.ctx := by
  unfold Inflater.inflate
  rw [h]
  rcases hf : Z.decompressFrame b.ctx message with ⟨r, c⟩
  cases r with
  | error code => exact ⟨rfl, rfl⟩
  | ok dec =>
    by_cases hv : isValidUtf8 dec
    · simp [hv]
    · simp [hv]

lemma inflateAll_depends_only_ctx {C : Type} (Z : ZstdModel C) :
    ∀ (frames : List (List Nat)) (a b : Inflater C), a.ctx = b.ctx →
    (Inflater.inflateAll Z a frames).1 = (Inflater.inflateAll Z b frames).1 ∧
    (Inflater.inflateAll Z a frames).2.ctx = (Inflater.inflateAll Z b frames).2.ctx := by
  intro frames
  induction frames with
  | nil => intro a b h; exact ⟨rfl, h⟩
  | cons frame frames ih =>
    intro a b h
    have h1 := inflate_depends_only_ctx Z a b frame h
    have h2 := ih (Inflater.inflate Z a frame).2 (Inflater.inflate Z b frame).2 h1.2
    constructor
    · simp only [Inflater.inflateAll]
      rw [h1.1, h2.1]
    · simp only [Inflater.inflateAll]
      exact h2.2

/-! ## Claim theorems -/

/-- C1: evaluation of `start_range` and `start_recommended` at a valid range
(`from = 0 < to = 2 < total = 3`, and recommended count 3).  The claim says
one shard per index is initialized; the loop's `if index < to - 1 {
break; }` stops after the first shard, and `start_recommended` additionally
passes `info.shards - 1` as the exclusive upper end, so only shard 0 is ever
initialized where the spec expects shards 0 and 1 (resp. 0, 1 and 2). -/
theorem start_range_loses_shards :
    start_range 0 2 3 = some [ShardId.mk 0 3] ∧
    start_recommended 3 = some [ShardId.mk 0 3] ∧
    specRangeIds 0 2 3 = [ShardId.mk 0 3, ShardId.mk 1 3] ∧
    specRangeIds 0 3 3 = [ShardId.mk 0 3, ShardId.mk 1 3, ShardId.mk 2 3] ∧
    start_range 0 2 3 ≠ some (specRangeIds 0 2 3) ∧
    start_recommended 3 ≠ some (specRangeIds 0 3 3) := by
  refine ⟨by decide, ?_, by decide, by decide, by decide, ?_⟩
  · show start_range 0 (u64sub1 3) 3 = some [ShardId.mk 0 3]
    norm_num [u64sub1, U64MOD]
    decide
  · show start_range 0 (u64sub1 3) 3 ≠ some (specRangeIds 0 3 3)
    norm_num [u64sub1, U64MOD]
    decide

/-- C2 counterexample: the range `0..=10` with total `5` resolves to
`Ok(Range { from: 0, to: 10, total: 5 })`, which violates the claimed
invariant `from ≤ to < total` — `try_from` never compares the range against
`total`. -/
theorem tryFrom_accepts_to_ge_total :
    ShardScheme.tryFrom (.included 0) (.included 10) 5 =
      .ok (.range 0 10 5) ∧
    ¬ specRangeInvariant (.range 0 10 5) := by
  constructor
  · rfl
  · simp only [specRangeInvariant]
    omega

/-- C2 (amended): every `Range` produced by `ShardScheme::try_from` satisfies
`from ≤ to`, with `from`/`to` the resolved bounds and `total` passed through
unchanged, and `try_from` returns an error exactly when the resolved start
exceeds the resolved end; the bound `to < total` is not checked. -/
theorem tryFrom_range_invariant (startB stopB : RBound) (total : Nat) :
    (∀ f t tt, ShardScheme.tryFrom startB stopB total = .ok (.range f t tt) →
      f ≤ t ∧ f = resolveStart startB ∧ t = resolveEnd total stopB ∧ tt = total) ∧
    ((∃ e, ShardScheme.tryFrom startB stopB total = .error e) ↔
      resolveEnd total stopB < resolveStart startB) := by
  by_cases hc : resolveStart startB > resolveEnd total stopB
  · constructor
    · intro f t tt h
      simp only [ShardScheme.tryFrom, if_pos hc] at h
      exact absurd h (by simp)
    · simp only [ShardScheme.tryFrom, if_pos hc]
      exact ⟨fun _ => hc, fun _ => ⟨_, rfl⟩⟩
  · constructor
    · intro f t tt h
      simp only [ShardScheme.tryFrom, if_neg hc] at h
      obtain ⟨h1, h2, h3⟩ := ShardScheme.range.inj (Except.ok.inj h)
      subst h1; subst h2; subst h3
      exact ⟨Nat.le_of_not_lt hc, rfl, rfl, rfl⟩
    · simp only [ShardScheme.tryFrom, if_neg hc]
      constructor
      · rintro ⟨e, he⟩
        exact absurd he (by simp)
      · intro h
        exact absurd h hc

/-- C2 witness: the amended theorem applied to the range `2..=7` with total
`10`. -/
theorem tryFrom_range_invariant_witness :
    (2 : Nat) ≤ 7 ∧ (2 : Nat) = resolveStart (.included 2) ∧
      (7 : Nat) = resolveEnd 10 (.included 7) ∧ (10 : Nat) = 10 :=
  (tryFrom_range_invariant (.included 2) (.included 7) 10).1 2 7 10 rfl

/-- C7: when the decompression context processes the frame successfully,
`inflate` returns the decompressed bytes as text exactly when they are valid
UTF-8 and a `NotUtf8` error exactly when they are not; a frame the context
cannot process yields a `Decompressing` error. -/
theorem inflate_error_classification {C : Type} (Z : ZstdModel C)
    (st : Inflater C) (message : List Nat) :
    (∀ dec ctx1, Z.decompressFrame st.ctx message = (.ok dec, ctx1) →
      (((Inflater.inflate Z st message).1 = .ok dec) ↔ isValidUtf8 dec = true) ∧
      (((Inflater.inflate Z st message).1 = .error ⟨.notUtf8⟩) ↔
        isValidUtf8 dec = false)) ∧
    (∀ code ctx1, Z.decompressFrame st.ctx message = (.error code, ctx1) →
      (Inflater.inflate Z st message).1 = .error ⟨.decompressing⟩) := by
  constructor
  · intro dec ctx1 h
    unfold Inflater.inflate
    rw [h]
    by_cases hv : isValidUtf8 dec
    · simp [hv]
    · simp [hv]
  · intro code ctx1 h
    unfold Inflater.inflate
    rw [h]

/-- C7 witness: the classification theorem applied with a concrete oracle to
the valid-UTF-8 frame `[104]` and, through the error oracle, to a failing
frame. -/
theorem inflate_error_classification_witness :
    (((Inflater.inflate zstdId (Inflater.new zstdId) [104]).1 = .ok [104]) ↔
      isValidUtf8 [104] = true) ∧
    (Inflater.inflate zstdFail (Inflater.new zstdFail) [1, 2]).1 =
      .error ⟨.decompressing⟩ :=
  ⟨((inflate_error_classification zstdId (Inflater.new zstdId) [104]).1
      [104] () rfl).1,
    (inflate_error_classification zstdFail (Inflater.new zstdFail) [1, 2]).2
      1 () rfl⟩

/-- C8: feeding the same frame sequence to two inflaters whose freshly-reset
contexts agree yields identical per-frame outputs — the scratch buffer and
the `processed`/`produced` counters are not hidden inputs of the output. -/
theorem inflate_deterministic {C : Type} (Z : ZstdModel C)
    (st1 st2 : Inflater C) (frames : List (List Nat))
    (h : Z.resetSession st1.ctx = Z.resetSession st2.ctx) :
    (Inflater.inflateAll Z (Inflater.reset Z st1) frames).1 =
      (Inflater.inflateAll Z (Inflater.reset Z st2) frames).1 :=
  (inflateAll_depends_only_ctx Z frames (Inflater.reset Z st1)
    (Inflater.reset Z st2) h).1

/-- C8 witness: the determinism theorem applied to a used inflater (nonzero
counters, emptied buffer) and a fresh one over a concrete frame sequence. -/
theorem inflate_deterministic_witness :
    (Inflater.inflateAll zstdId
        (Inflater.reset zstdId ⟨[], (), 5, 7⟩) [[104], [0xFF]]).1 =
      (Inflater.inflateAll zstdId
        (Inflater.reset zstdId (Inflater.new zstdId)) [[104], [0xFF]]).1 :=
  inflate_deterministic zstdId ⟨[], (), 5, 7⟩ (Inflater.new zstdId)
    [[104], [0xFF]] rfl

/-- C9: `reset` re-initializes only the decompression context: the scratch
buffer and the `processed`/`produced` counters of any inflater state are
unchanged, and the context becomes the session-reset of the old context. -/
theorem reset_touches_only_ctx {C : Type} (Z : ZstdModel C) (st : Inflater C) :
    (Inflater.reset Z st).buffer = st.buffer ∧
    (Inflater.reset Z st).processed = st.processed ∧
    (Inflater.reset Z st).produced = st.produced ∧
    (Inflater.reset Z st).ctx = Z.resetSession st.ctx :=
  ⟨rfl, rfl, rfl, rfl⟩

/-- C10: a `Decompressing` failure leaves the `processed` and `produced`
counters unchanged, while a fully decompressed frame that then fails UTF-8
validation has already bumped `processed` by the frame length and `produced`
by the decompressed length — the counters record decompressed frames, not
returned messages. -/
theorem inflate_counter_update {C : Type} (Z : ZstdModel C) (st : Inflater C)
    (message : List Nat) :
    (∀ code ctx1, Z.decompressFrame st.ctx message = (.error code, ctx1) →
      (Inflater.inflate Z st message).2.processed = st.processed ∧
      (Inflater.inflate Z st message).2.produced = st.produced) ∧
    (∀ dec ctx1, Z.decompressFrame st.ctx message = (.ok dec, ctx1) →
      isValidUtf8 dec = false →
      (Inflater.inflate Z st message).1 = .error ⟨.notUtf8⟩ ∧
      (Inflater.inflate Z st message).2.processed =
        (st.processed + message.length) % U64MOD ∧
      (Inflater.inflate Z st message).2.produced =
        (st.produced + dec.length) % U64MOD) := by
  constructor
  · intro code ctx1 h
    unfold Inflater.inflate
    rw [h]
    exact ⟨rfl, rfl⟩
  · intro dec ctx1 h hv
    unfold Inflater.inflate
    rw [h]
    simp [hv]

/-- C10 witness: the counter theorem applied through the failing oracle to
the frame `[1, 2, 3]` and through the identity oracle to the non-UTF-8 frame
`[0xFF]`. -/
theorem inflate_counter_update_witness :
    ((Inflater.inflate zstdFail (Inflater.new zstdFail) [1, 2, 3]).2.processed =
        (Inflater.new zstdFail).processed ∧
      (Inflater.inflate zstdFail (Inflater.new zstdFail) [1, 2, 3]).2.produced =
        (Inflater.new zstdFail).produced) ∧
    (Inflater.inflate zstdId (Inflater.new zstdId) [0xFF]).2.processed =
      ((Inflater.new zstdId).processed + 1) % U64MOD :=
  ⟨(inflate_counter_update zstdFail (Inflater.new zstdFail) [1, 2, 3]).1
      1 () rfl,
    ((inflate_counter_update zstdId (Inflater.new zstdId) [0xFF]).2
      [0xFF] () rfl (by decide)).2.1⟩

/-! ## Helper lemmas about the queue semantics -/

lemma qstep_nextFree_facts (n : Nat) (s : QState) (e : QEvent) (s1 : QState)
    (g : Option Grant) (h : qstep n s e = some (s1, g)) :
    (∀ b, s.nextFree b ≤ s1.nextFree b) ∧
    (∀ gr, g = some gr → s.nextFree gr.bucket ≤ gr.time ∧
      s1.nextFree gr.bucket = gr.time + waiterDUR) := by
  cases e with
  | enqueue t reqId shardIndex =>
    simp only [qstep] at h
    by_cases hc : 0 < n ∧ s.now ≤ t
    · rw [if_pos hc] at h
      simp only [Option.some.injEq, Prod.mk.injEq] at h
      obtain ⟨h1, h2⟩ := h
      subst h1
      subst h2
      exact ⟨fun b => Nat.le_refl _, fun gr hgr => absurd hgr (by simp)⟩
    · rw [if_neg hc] at h
      exact absurd h (by simp)
  | grant t b =>
    simp only [qstep] at h
    by_cases hc : b < n ∧ s.now ≤ t ∧ s.nextFree b ≤ t
    · rw [if_pos hc] at h
      rcases hp : s.pending b with _ | ⟨reqId, rest⟩ <;> rw [hp] at h
      · exact absurd h (by simp)
      · simp only [Option.some.injEq, Prod.mk.injEq] at h
        obtain ⟨h1, h2⟩ := h
        subst h1
        subst h2
        obtain ⟨hbn, hnow, hfree⟩ := hc
        constructor
        · intro j
          by_cases hj : j = b
          · subst hj
            simp only [if_pos rfl]
            exact Nat.le_trans hfree (Nat.le_add_right _ _)
          · simp [hj]
        · intro gr hgr
          obtain rfl := Option.some.inj hgr
          exact ⟨hfree, by simp⟩
    · rw [if_neg hc] at h
      exact absurd h (by simp)

lemma qexec_nextFree_facts (n : Nat) :
    ∀ (es : List QEvent) (s s2 : QState) (log : List Grant),
      qexec n s es = some (s2, log) →
      (∀ b, s.nextFree b ≤ s2.nextFree b) ∧
      (∀ g ∈ log, s.nextFree g.bucket ≤ g.time ∧
        g.time + waiterDUR ≤ s2.nextFree g.bucket) := by
  intro es
  induction es with
  | nil =>
    intro s s2 log h
    simp only [qexec, Option.some.injEq, Prod.mk.injEq] at h
    obtain ⟨h1, h2⟩ := h
    subst h1
    subst h2
    exact ⟨fun b => Nat.le_refl _, by simp⟩
  | cons e es ih =>
    intro s s2 log h
    rcases hstep : qstep n s e with _ | ⟨s1, g⟩
    · simp only [qexec, hstep] at h
      exact Option.noConfusion h
    · rcases hrest : qexec n s1 es with _ | ⟨s3, log1⟩
      · simp only [qexec, hstep, hrest] at h
        exact Option.noConfusion h
      · simp only [qexec, hstep, hrest, Option.some.injEq, Prod.mk.injEq] at h
        obtain ⟨h1, h2⟩ := h
        subst h1
        subst h2
        obtain ⟨ihmono, ihlog⟩ := ih s1 s3 log1 hrest
        obtain ⟨stepmono, stepgrant⟩ := qstep_nextFree_facts n s e s1 g hstep
        refine ⟨fun b => Nat.le_trans (stepmono b) (ihmono b), ?_⟩
        intro gr hgr
        rcases List.mem_append.mp hgr with hin | hin
        · cases g with
          | none => simp at hin
          | some gr0 =>
            simp only [Option.toList_some, List.mem_singleton] at hin
            subst hin
            obtain ⟨hle, heq⟩ := stepgrant gr rfl
            exact ⟨hle, heq ▸ ihmono gr.bucket⟩
        · obtain ⟨hle, hbound⟩ := ihlog gr hin
          exact ⟨Nat.le_trans (stepmono gr.bucket) hle, hbound⟩

lemma qexec_pairwise (n : Nat) :
    ∀ (es : List QEvent) (s s2 : QState) (log : List Grant),
      qexec n s es = some (s2, log) →
      log.Pairwise (fun g1 g2 => g1.bucket = g2.bucket →
        g1.time + waiterDUR ≤ g2.time) := by
  intro es
  induction es with
  | nil =>
    intro s s2 log h
    simp only [qexec, Option.some.injEq, Prod.mk.injEq] at h
    rw [← h.2]
    exact List.Pairwise.nil
  | cons e es ih =>
    intro s s2 log h
    rcases hstep : qstep n s e with _ | ⟨s1, g⟩
    · simp only [qexec, hstep] at h
      exact Option.noConfusion h
    · rcases hrest : qexec n s1 es with _ | ⟨s3, log1⟩
      · simp only [qexec, hstep, hrest] at h
        exact Option.noConfusion h
      · simp only [qexec, hstep, hrest, Option.some.injEq, Prod.mk.injEq] at h
        obtain ⟨h1, h2⟩ := h
        subst h1
        subst h2
        have hpw := ih s1 s3 log1 hrest
        cases g with
        | none => simpa using hpw
        | some gr =>
          refine List.Pairwise.cons ?_ hpw
          intro g2 hg2 hbeq
          obtain ⟨hle, heq⟩ :=
            (qstep_nextFree_facts n s e s1 (some gr) hstep).2 gr rfl
          have hg2f := ((qexec_nextFree_facts n es s1 s3 log1 hrest).2 g2 hg2).1
          rw [hbeq] at heq
          exact heq ▸ hg2f

lemma grantedIds_append (b : Nat) (l1 l2 : List Grant) :
    grantedIds b (l1 ++ l2) = grantedIds b l1 ++ grantedIds b l2 := by
  simp [grantedIds, List.filterMap_append]

lemma enqueuedIds_cons (n b : Nat) (e : QEvent) (es : List QEvent) :
    enqueuedIds n b (e :: es) = enqueuedIds n b [e] ++ enqueuedIds n b es := by
  cases e with
  | enqueue t reqId shardIndex =>
    simp only [enqueuedIds]
    by_cases hb : LargeBotQueue.bucketIndex shardIndex n = b <;> simp [hb]
  | grant t b0 => simp [enqueuedIds]

lemma qstep_fifo (n : Nat) (s : QState) (e : QEvent) (s1 : QState)
    (g : Option Grant) (h : qstep n s e = some (s1, g)) (b : Nat) :
    grantedIds b g.toList ++ s1.pending b =
      s.pending b ++ enqueuedIds n b [e] := by
  cases e with
  | enqueue t reqId shardIndex =>
    simp only [qstep] at h
    by_cases hc : 0 < n ∧ s.now ≤ t
    · rw [if_pos hc] at h
      simp only [Option.some.injEq, Prod.mk.injEq] at h
      obtain ⟨h1, h2⟩ := h
      subst h1
      subst h2
      by_cases hb : b = LargeBotQueue.bucketIndex shardIndex n
      · subst hb
        simp [grantedIds, enqueuedIds]
      · simp [grantedIds, enqueuedIds, hb, Ne.symm hb]
    · rw [if_neg hc] at h
      exact Option.noConfusion h
  | grant t b0 =>
    simp only [qstep] at h
    by_cases hc : b0 < n ∧ s.now ≤ t ∧ s.nextFree b0 ≤ t
    · rw [if_pos hc] at h
      rcases hp : s.pending b0 with _ | ⟨reqId, rest⟩ <;> rw [hp] at h
      · exact Option.noConfusion h
      · simp only [Option.some.injEq, Prod.mk.injEq] at h
        obtain ⟨h1, h2⟩ := h
        subst h1
        subst h2
        by_cases hb : b = b0
        · subst hb
          simp [grantedIds, enqueuedIds, hp]
        · simp [grantedIds, enqueuedIds, hb, Ne.symm hb]
    · rw [if_neg hc] at h
      exact Option.noConfusion h

lemma qexec_fifo (n : Nat) :
    ∀ (es : List QEvent) (s s2 : QState) (log : List Grant),
      qexec n s es = some (s2, log) →
      ∀ b, grantedIds b log ++ s2.pending b =
        s.pending b ++ enqueuedIds n b es := by
  intro es
  induction es with
  | nil =>
    intro s s2 log h b
    simp only [qexec, Option.some.injEq, Prod.mk.injEq] at h
    obtain ⟨h1, h2⟩ := h
    subst h1
    subst h2
    simp [grantedIds, enqueuedIds]
  | cons e es ih =>
    intro s s2 log h b
    rcases hstep : qstep n s e with _ | ⟨s1, g⟩
    · simp only [qexec, hstep] at h
      exact Option.noConfusion h
    · rcases hrest : qexec n s1 es with _ | ⟨s3, log1⟩
      · simp only [qexec, hstep, hrest] at h
        exact Option.noConfusion h
      · simp only [qexec, hstep, hrest, Option.some.injEq, Prod.mk.injEq] at h
        obtain ⟨h1, h2⟩ := h
        subst h1
        subst h2
        have hstepf := qstep_fifo n s e s1 g hstep b
        have hih := ih s1 s3 log1 hrest b
        rw [enqueuedIds_cons, grantedIds_append]
        calc grantedIds b g.toList ++ grantedIds b log1 ++ s3.pending b
            = grantedIds b g.toList ++ (grantedIds b log1 ++ s3.pending b) := by
              rw [List.append_assoc]
          _ = grantedIds b g.toList ++ (s1.pending b ++ enqueuedIds n b es) := by
              rw [hih]
          _ = grantedIds b g.toList ++ s1.pending b ++ enqueuedIds n b es := by
              rw [List.append_assoc]
          _ = s.pending b ++ enqueuedIds n b [e] ++ enqueuedIds n b es := by
              rw [hstepf]
          _ = s.pending b ++ (enqueuedIds n b [e] ++ enqueuedIds n b es) := by
              rw [List.append_assoc]

/-- C3: an admitted `request` enqueue appends the request to bucket
`shard_id[0] % nBuckets` and to no other bucket, leaving every bucket's
pacing state untouched; and a grant in one bucket leaves the pending queue
and the pacing state of every other bucket unchanged, so distinct buckets
are paced independently. -/
theorem request_bucket_routing :
    (∀ (n : Nat) (s : QState) (t reqId shardIndex : Nat) (s1 : QState)
      (g : Option Grant),
      qstep n s (.enqueue t reqId shardIndex) = some (s1, g) →
      s1.pending (LargeBotQueue.bucketIndex shardIndex n) =
        s.pending (LargeBotQueue.bucketIndex shardIndex n) ++ [reqId] ∧
      (∀ b, b ≠ LargeBotQueue.bucketIndex shardIndex n →
        s1.pending b = s.pending b) ∧
      (∀ b, s1.nextFree b = s.nextFree b)) ∧
    (∀ (n : Nat) (s : QState) (t b0 : Nat) (s1 : QState) (g : Option Grant),
      qstep n s (.grant t b0) = some (s1, g) →
      ∀ b, b ≠ b0 → s1.pending b = s.pending b ∧
        s1.nextFree b = s.nextFree b) := by
  constructor
  · intro n s t reqId shardIndex s1 g h
    simp only [qstep] at h
    by_cases hc : 0 < n ∧ s.now ≤ t
    · rw [if_pos hc] at h
      simp only [Option.some.injEq, Prod.mk.injEq] at h
      obtain ⟨h1, h2⟩ := h
      subst h1
      subst h2
      refine ⟨by simp, ?_, fun b => rfl⟩
      intro b hb
      simp [hb]
    · rw [if_neg hc] at h
      exact Option.noConfusion h
  · intro n s t b0 s1 g h b hb
    simp only [qstep] at h
    by_cases hc : b0 < n ∧ s.now ≤ t ∧ s.nextFree b0 ≤ t
    · rw [if_pos hc] at h
      rcases hp : s.pending b0 with _ | ⟨reqId, rest⟩ <;> rw [hp] at h
      · exact Option.noConfusion h
      · simp only [Option.some.injEq, Prod.mk.injEq] at h
        obtain ⟨h1, h2⟩ := h
        subst h1
        subst h2
        exact ⟨by simp [hb], by simp [hb]⟩
    · rw [if_neg hc] at h
      exact Option.noConfusion h

/-- C3 witness: the routing theorem applied to a concrete enqueue of shard 5
into a 3-bucket queue (bucket `5 % 3 = 2`), and to a concrete grant in
bucket 0 leaving bucket 1 untouched. -/
theorem request_bucket_routing_witness :
    (∃ s1 g, qstep 3 QState.init (.enqueue 0 7 5) = some (s1, g) ∧
      s1.pending (LargeBotQueue.bucketIndex 5 3) =
        QState.init.pending (LargeBotQueue.bucketIndex 5 3) ++ [7]) ∧
    (∃ s1 g, qstep 1 ⟨fun _ => [9], fun _ => 0, 0⟩ (.grant 0 0) =
        some (s1, g) ∧
      s1.pending 1 = [9] ∧ s1.nextFree 1 = 0) := by
  constructor
  · refine ⟨_, _, rfl, ?_⟩
    exact (request_bucket_routing.1 3 QState.init 0 7 5 _ _ rfl).1
  · refine ⟨_, _, rfl, ?_⟩
    exact request_bucket_routing.2 1 ⟨fun _ => [9], fun _ => 0, 0⟩ 0 0 _ _ rfl
      1 (by decide)

/-- C4: in every admissible execution, two grants from the same bucket are at
least the 6-second pacing interval apart, and there is an execution in which
two grants from distinct buckets happen at the same instant. -/
theorem queue_grant_spacing :
    (∀ (n : Nat) (es : List QEvent) (s2 : QState) (log : List Grant),
      qexec n QState.init es = some (s2, log) →
      log.Pairwise (fun g1 g2 => g1.bucket = g2.bucket →
        g1.time + waiterDUR ≤ g2.time)) ∧
    (∃ (es : List QEvent) (s2 : QState) (log : List Grant),
      qexec 2 QState.init es = some (s2, log) ∧
      ∃ g1 ∈ log, ∃ g2 ∈ log, g1.bucket ≠ g2.bucket ∧ g1.time = g2.time) := by
  constructor
  · intro n es s2 log h
    exact qexec_pairwise n es QState.init s2 log h
  · refine ⟨[.enqueue 0 1 0, .enqueue 0 2 1, .grant 0 0, .grant 0 1],
      _, _, rfl, ⟨0, 0, 1⟩, ?_, ⟨0, 1, 2⟩, ?_, by decide, rfl⟩
    · simp
    · simp

/-- C4 witness: the spacing theorem applied to a single-bucket trace with two
grants 6 seconds apart. -/
theorem queue_grant_spacing_witness :
    ([⟨0, 0, 1⟩, ⟨6, 0, 2⟩] : List Grant).Pairwise
      (fun g1 g2 => g1.bucket = g2.bucket →
        g1.time + waiterDUR ≤ g2.time) :=
  queue_grant_spacing.1 1
    [.enqueue 0 1 0, .enqueue 0 2 0, .grant 0 0, .grant 6 0] _ _ rfl

/-- C6: within one bucket, grants are strictly FIFO by arrival order: in any
admissible execution from the initial state, the sequence of request ids
granted from a bucket is a prefix of the sequence of request ids enqueued to
that bucket. -/
theorem queue_bucket_fifo (n : Nat) (es : List QEvent) (s2 : QState)
    (log : List Grant) (h : qexec n QState.init es = some (s2, log))
    (b : Nat) :
    ∃ rest, enqueuedIds n b es = grantedIds b log ++ rest := by
  have hinv := qexec_fifo n es QState.init s2 log h b
  refine ⟨s2.pending b, ?_⟩
  have hinit : QState.init.pending b = [] := rfl
  rw [hinit, List.nil_append] at hinv
  exact hinv.symm

/-- C6 witness: the FIFO theorem applied to a concrete two-request,
one-bucket trace. -/
theorem queue_bucket_fifo_witness :
    ∃ rest, enqueuedIds 2 0
        [.enqueue 0 1 0, .enqueue 0 2 2, .grant 0 0, .grant 6 0] =
      grantedIds 0 [⟨0, 0, 1⟩, ⟨6, 0, 2⟩] ++ rest := by
  exact queue_bucket_fifo 2
    [.enqueue 0 1 0, .enqueue 0 2 2, .grant 0 0, .grant 6 0] _ _ rfl 0

/-- C5: the future returned by `request` always completes with the unit
value — both its paths, including a failed channel send, end in `()`, and no
error value exists — after first awaiting the daily-quota gate: the quota
wait is the head action, opening immediately when quota remains and only at
the reported reset time when the quota is exhausted, and the enqueue into
the paced bucket `shard_id[0] % nBuckets` happens after it, so the quota
gate is layered in front of (not instead of) the per-bucket pacing. -/
theorem request_gates_quota_then_bucket (d : DayLimiter)
    (nBuckets shardId0 t : Nat) (sendOk : Bool) :
    (LargeBotQueue.request d nBuckets shardId0 t sendOk).2 = () ∧
    (LargeBotQueue.request d nBuckets shardId0 t sendOk).1.head? =
      some (.quotaWait (DayLimiter.get d t)) ∧
    (d.current < d.total → DayLimiter.get d t = t) ∧
    (¬ d.current < d.total → DayLimiter.get d t = max t d.nextReset) ∧
    (sendOk = true →
      (LargeBotQueue.request d nBuckets shardId0 t sendOk).1 =
        [.quotaWait (DayLimiter.get d t),
          .enqueueBucket (LargeBotQueue.bucketIndex shardId0 nBuckets)
            (DayLimiter.get d t),
          .awaitGrant]) ∧
    (sendOk = false →
      (LargeBotQueue.request d nBuckets shardId0 t sendOk).1 =
        [.quotaWait (DayLimiter.get d t)]) := by
  cases sendOk with
  | true =>
    refine ⟨rfl, rfl, ?_, ?_, fun _ => rfl, fun h => Bool.noConfusion h⟩
    · intro h
      simp [DayLimiter.get, h]
    · intro h
      simp [DayLimiter.get, h]
  | false =>
    refine ⟨rfl, rfl, ?_, ?_, fun h => Bool.noConfusion h, fun _ => rfl⟩
    · intro h
      simp [DayLimiter.get, h]
    · intro h
      simp [DayLimiter.get, h]

/-- C5 witness: the gating theorem applied to an exhausted quota (5 of 5
identifies used, reset at 100) for a caller arriving at time 3: the gate
opens only at the reset time. -/
theorem request_gates_quota_then_bucket_witness :
    DayLimiter.get ⟨5, 5, 100⟩ 3 = max 3 100 :=
  (request_gates_quota_then_bucket ⟨5, 5, 100⟩ 2 1 3 true).2.2.2.1
    (by decide)
